import Mathlib

/-!
# Verification of the libiio Python bindings (`bindings/python/iio.py`)

Shallow embedding of the data model and the buffer / channel / stream
operations of the libiio Python bindings.  Pure Python functions become Lean
functions; the C library calls that the ctypes layer merely forwards to (and
whose C sources are not part of this tree) are modelled from the
specification, each such definition marked `Modelled from the spec:` in its
doc comment.

Bytes are modelled as natural numbers, byte blobs as `List Nat`; the byte
range of a buffer (the region between `iio_buffer_start` and
`iio_buffer_end`) is the `data` field of the `Buffer` structure.
-/

namespace IIO

/-- Error taxonomy of the buffer/streaming core (spec §7).  The ctypes layer
surfaces native failures as exceptions; the abstract core distinguishes them
by name. -/
inductive IIOError where
  | InvalidConfigurationError
  | NotScanElementError
  | NotEnabledError
  | AllocationError
  | BlockBusyError
  deriving DecidableEq, Repr

/-- The `iio_data_format` structure, as mirrored by the ctypes `DataFormat`
class (fields `length`, `bits`, `shift`, `is_signed`, `is_fully_defined`,
`is_be`, `with_scale`, `scale`, `repeat`; the floating-point `scale` field is
not modelled, scaled conversion is out of the raw path modelled here). -/
structure DataFormat where
  length : Nat
  bits : Nat
  shift : Nat
  is_signed : Bool
  is_fully_defined : Bool
  is_be : Bool
  with_scale : Bool
  repeatCount : Nat
  deriving DecidableEq, Repr

/-- A channel of an IIO device: the immutable metadata the `Channel` class
caches at construction time (`_id`, `_scan_element`) together with the
`index` and `data_format` properties read through the C accessors. -/
structure Channel where
  id : String
  index : Nat
  scan_element : Bool
  data_format : DataFormat
  deriving DecidableEq, Repr

/-- A device: the list of channels in the order the C library enumerates
them (`iio_device_get_channel 0, 1, ...`). -/
structure Device where
  raw_channels : List Channel
  deriving DecidableEq, Repr

/-- The channel enable mask of a device: `bits i = true` iff the channel of
index `i` is currently enabled for buffered I/O. -/
structure ChannelsMask where
  bits : List Bool
  deriving DecidableEq, Repr

/-- Whether the channel of index `i` is enabled in the mask
(`iio_channel_is_enabled`). -/
def ChannelsMask.isEnabled (m : ChannelsMask) (i : Nat) : Bool :=
  m.bits.getD i false

/-- Storage size in bytes of one sample of a channel:
`ceil(length/8) * repeat` where `length` is the bit width of one storage
unit of the channel's data format. -/
def byte_size (c : Channel) : Nat :=
  ((c.data_format.length + 7) / 8) * c.data_format.repeatCount

/-- Ascending order on the `index` attribute of channels. -/
def indexLe (a b : Channel) : Prop := a.index ≤ b.index

instance : DecidableRel indexLe := fun a b => inferInstanceAs (Decidable (a.index ≤ b.index))

/-- Running-total accumulation of the storage sizes of a channel list. -/
def sumSizes : List Channel → Nat → Nat
  | [], acc => acc
  | c :: cs, acc => sumSizes cs (acc + byte_size c)

/-- Modelled from the spec: the C function `iio_device_get_sample_size`
(reached through the ctypes stub `_get_sample_size` and the
`_DeviceOrTrigger.sample_size` property; its C source is not part of this
tree).  Per spec §4.1, it "returns Σ over enabled channels (in ascending
index order) of `ceil(bits_storage/8) × repeat`" and "fails
(`InvalidConfigurationError`) if zero channels enabled". -/
def sample_size (d : Device) (m : ChannelsMask) : Except IIOError Nat :=
  match d.raw_channels.filter (fun c => m.isEnabled c.index) with
  | [] => .error .InvalidConfigurationError
  | c :: cs => .ok (sumSizes (List.insertionSort indexLe (c :: cs)) 0)

/-- Ordering on channels by the lexicographic order of their id strings,
stated on the character lists underlying the strings (Python compares `str`
keys lexicographically by code point, which is `String.le_iff_toList_le`). -/
def idLe (a b : Channel) : Prop := a.id.data ≤ b.id.data

instance : DecidableRel idLe :=
  fun a b => inferInstanceAs (Decidable (a.id.data ≤ b.id.data))

/-- The `channels` property of `_DeviceOrTrigger`: builds the wrapped channel
list and sorts it with `sorted(..., key=lambda c: c.id)` (a stable sort on
the id string). -/
def channels (d : Device) : List Channel :=
  List.insertionSort idLe d.raw_channels

/-- The Python-side state of an `iio.Buffer` object: `_length` (bytes),
`_samples_count`, and the byte range `[iio_buffer_start, iio_buffer_end)`
of the native buffer, modelled as the list `data`. -/
structure Buffer where
  length : Nat
  samples_count : Nat
  data : List Nat
  deriving DecidableEq, Repr

/-- Python `Buffer.__init__(device, samples_count)`: creates the native buffer
(which fails when the device's sample size is invalid, e.g. no channel
enabled) and records `_length = samples_count * device.sample_size` and
`_samples_count = samples_count`. -/
def Buffer.init (d : Device) (m : ChannelsMask) (samples_count : Nat) :
    Except IIOError Buffer := do
  let ss ← sample_size d m
  pure { length := samples_count * ss
         samples_count := samples_count
         data := List.replicate (samples_count * ss) 0 }

/-- Python `Buffer.__len__`: returns `self._length`. -/
def Buffer.len (b : Buffer) : Nat := b.length

/-- Python `Buffer.read()`: copies the whole byte range `[start, end)` out of the
buffer. -/
def Buffer.read (b : Buffer) : List Nat := b.data

/-- Python `Buffer.write(array)`: translation of

```
length = end - start
if length > len(array):
    length = len(array)
_memmove(start, c_array, length)
return length
```

returning the updated byte range together with the returned count. -/
def Buffer.write (b : Buffer) (array : List Nat) : Buffer × Nat :=
  let length := b.data.length
  let length := if length > array.length then array.length else length
  ({ b with data := array.take length ++ b.data.drop length }, length)

/-- Python's `x or default` applied to the optional `samples_count` argument
of `Buffer.push`: `None` and `0` are falsy and select the default. -/
def pyOrNat (x : Option Nat) (dflt : Nat) : Nat :=
  match x with
  | none => dflt
  | some n => if n = 0 then dflt else n

/-- Python `Buffer.push(samples_count=None)`: the sample count handed to
`_buffer_push_partial`, namely `samples_count or self._samples_count`. -/
def Buffer.push (b : Buffer) (samples_count : Option Nat) : Nat :=
  pyOrNat samples_count b.samples_count

/-- The handle assignment of `Buffer.__init__`: `self._buffer` receives the
native handle, or is set to `None` before the exception propagates when
`_create_buffer` raises (`try: ... except: self._buffer = None; raise`). -/
def buffer_init_handle (create_result : Except IIOError Nat) : Option Nat :=
  match create_result with
  | .ok h => some h
  | .error _ => none

/-- Python `Buffer.__del__`: the list of native handles passed to
`_buffer_destroy` (`if self._buffer is not None: _buffer_destroy(self._buffer)`). -/
def buffer_del_calls (handle : Option Nat) : List Nat :=
  match handle with
  | none => []
  | some h => [h]

/-- The handle assignment of `Context.__init__`: `self._context = None` first,
then the native handle on success; on failure the attribute keeps `None`. -/
def context_init_handle (create_result : Except IIOError Nat) : Option Nat :=
  match create_result with
  | .ok h => some h
  | .error _ => none

/-- Python `Context.__del__`: the list of native handles passed to `_destroy`
(`if self._context is not None: _destroy(self._context)`). -/
def context_del_calls (handle : Option Nat) : List Nat :=
  match handle with
  | none => []
  | some h => [h]

/-- Modelled from the spec: `iio_channel_enable` as gated by §4.2
(its C source is not part of this tree): "toggles this channel's bit within
the given mask; no-op on an already-set state; requires
`is_scan_element == true`, else fails (`NotScanElementError`)". -/
def Channel.enable (c : Channel) (m : ChannelsMask) : Except IIOError ChannelsMask :=
  if c.scan_element then .ok ⟨m.bits.set c.index true⟩
  else .error .NotScanElementError

/-- Modelled from the spec: `iio_channel_disable`, clearing the channel's
bit in the mask under the same scan-element requirement as `enable`. -/
def Channel.disable (c : Channel) (m : ChannelsMask) : Except IIOError ChannelsMask :=
  if c.scan_element then .ok ⟨m.bits.set c.index false⟩
  else .error .NotScanElementError

/-- The `enabled` property setter of the `Channel` class: dispatches to
enable or disable (`_c_enable(...) if x else _c_disable(...)`). -/
def Channel.set_enabled (c : Channel) (m : ChannelsMask) (x : Bool) :
    Except IIOError ChannelsMask :=
  if x then c.enable m else c.disable m

/-- Number of storage words one frame (one time-slice of all enabled
channels) holds for the channel `x`: the `repeat` count of its data
format. -/
def wordCount (x : Channel) : Nat := x.data_format.repeatCount

/-- Word offset of channel `c` inside one frame of the layout of mask `m`
over device `d`: the enabled channels participate in ascending index order,
so `c`'s words start after those of every enabled channel of smaller
index. -/
def wordOffset (d : Device) (m : ChannelsMask) (c : Channel) : Nat :=
  (((d.raw_channels.filter fun x => m.isEnabled x.index).filter
      fun x => x.index < c.index).map wordCount).sum

/-- Replace the `seg.length` words at offset `off` of a frame. -/
def setSeg (frame : List Int) (off : Nat) (seg : List Int) : List Int :=
  frame.take off ++ seg ++ frame.drop (off + seg.length)

/-- Extract the `sz` words at offset `off` of a frame. -/
def getSeg (frame : List Int) (off sz : Nat) : List Int :=
  (frame.drop off).take sz

/-- Store one sample (of `(ss.head).length` words) per frame at offset
`off`: frame `j` receives sample `j`. -/
def writeFrames (off : Nat) : List (List Int) → List (List Int) → List (List Int)
  | fs, [] => fs
  | [], _ => []
  | f :: fs, s :: ss => setSeg f off s :: writeFrames off fs ss

/-- Extract the `sz` words at offset `off` of every frame. -/
def readFrames (off sz : Nat) (fs : List (List Int)) : List (List Int) :=
  fs.map (fun f => getSeg f off sz)

/-- Modelled from the spec: `iio_channel_read_raw` reached through
`Channel.read(buf, raw=True)` (its C source is not part of this tree).
Per §4.2, it "extracts this channel's interleaved samples from the block's
raw bytes according to the block's owning buffer's mask layout" and
"fails (`NotEnabledError`) if the channel is not enabled in the block's
mask".  A block is the list of its frames, each frame a list of storage
words. -/
def Channel.read_raw (c : Channel) (d : Device) (m : ChannelsMask)
    (blk : List (List Int)) : Except IIOError (List (List Int)) :=
  if m.isEnabled c.index then
    .ok (readFrames (wordOffset d m c) (wordCount c) blk)
  else .error .NotEnabledError

/-- Modelled from the spec: `iio_channel_write_raw` reached through
`Channel.write(buf, array, raw=True)`: the inverse of `read_raw`, failing
identically when the channel is not enabled. -/
def Channel.write_raw (c : Channel) (d : Device) (m : ChannelsMask)
    (blk : List (List Int)) (V : List (List Int)) :
    Except IIOError (List (List Int)) :=
  if m.isEnabled c.index then
    .ok (writeFrames (wordOffset d m c) blk V)
  else .error .NotEnabledError

/-- Modelled from the spec: `iio_channel_convert` (hardware → host, §4.2:
"endianness, sign-extension, shift, scale").  One storage word is modelled
as an integer, which absorbs endianness (byte order within the word); the
significant field is the `bits`-wide slice starting at bit `shift`,
sign-extended when `is_signed`.  The scaled path (`with_scale = true`)
multiplies by the floating-point `scale` and is not modelled: this
definition is the conversion as the spec fixes it for
`with_scale = false`. -/
def convert (fmt : DataFormat) (v : Int) : Int :=
  if fmt.is_signed = true ∧ 2 ^ (fmt.bits - 1) ≤ v / 2 ^ fmt.shift % 2 ^ fmt.bits
  then v / 2 ^ fmt.shift % 2 ^ fmt.bits - 2 ^ fmt.bits
  else v / 2 ^ fmt.shift % 2 ^ fmt.bits

/-- Modelled from the spec: `iio_channel_convert_inverse` (host → hardware):
truncates the host value to the `bits`-wide field and places it at bit
`shift` of the storage word, under the same `with_scale = false` proviso as
`convert`. -/
def convert_inverse (fmt : DataFormat) (h : Int) : Int :=
  (h % 2 ^ fmt.bits) * 2 ^ fmt.shift

/-- The host values representable without loss in a data format: the
`bits`-wide field interpreted as a two's-complement integer when
`is_signed`, as an unsigned integer otherwise. -/
def host_in_range (fmt : DataFormat) (h : Int) : Prop :=
  if fmt.is_signed = true
  then -(2 ^ (fmt.bits - 1)) ≤ h ∧ h < 2 ^ (fmt.bits - 1)
  else 0 ≤ h ∧ h < 2 ^ fmt.bits

/-- Modelled from the spec: `iio_channel_read` reached through
`Channel.read(buf, raw=False)`: like `read_raw`, but converts every
extracted storage word from hardware native encoding to host format, and
fails identically (`NotEnabledError`) when the channel is not enabled in
the block's mask. -/
def Channel.read_conv (c : Channel) (d : Device) (m : ChannelsMask)
    (blk : List (List Int)) : Except IIOError (List (List Int)) :=
  if m.isEnabled c.index then
    .ok ((readFrames (wordOffset d m c) (wordCount c) blk).map
      fun s => s.map (convert c.data_format))
  else .error .NotEnabledError

/-- Modelled from the spec: `iio_channel_write` reached through
`Channel.write(buf, array, raw=False)`: converts every host sample word to
hardware format and stores it through the mask layout, failing identically
when the channel is not enabled. -/
def Channel.write_conv (c : Channel) (d : Device) (m : ChannelsMask)
    (blk : List (List Int)) (V : List (List Int)) :
    Except IIOError (List (List Int)) :=
  if m.isEnabled c.index then
    .ok (writeFrames (wordOffset d m c) blk
      (V.map fun s => s.map (convert_inverse c.data_format)))
  else .error .NotEnabledError

/-- Python `Channel.read(buf, raw)`: dispatches to `_c_read_raw` when `raw` is
set, to `_c_read` otherwise. -/
def Channel.read (c : Channel) (d : Device) (m : ChannelsMask)
    (blk : List (List Int)) (raw : Bool) : Except IIOError (List (List Int)) :=
  if raw then c.read_raw d m blk else c.read_conv d m blk

/-- Python `Channel.write(buf, array, raw)`: dispatches to `_c_write_raw` when
`raw` is set, to `_c_write` otherwise. -/
def Channel.write (c : Channel) (d : Device) (m : ChannelsMask)
    (blk : List (List Int)) (V : List (List Int)) (raw : Bool) :
    Except IIOError (List (List Int)) :=
  if raw then c.write_raw d m blk V else c.write_conv d m blk V

/-- Modelled from the spec: the state of a `Stream` (§4.5): a fixed pool of
blocks driven as a FIFO queue against the hardware ring; the queue lists the
pool blocks in submission order, oldest first. -/
def stream_create (pool_size : Nat) : List Nat :=
  List.range pool_size

/-- Modelled from the spec: `Stream.next()` (§4.5): yields the oldest
submitted block of the ring and immediately reuses its slot, resubmitting it
at the back of the queue. -/
def stream_next (s : List Nat) : Nat × List Nat :=
  match s with
  | [] => (0, [])
  | h :: t => (h, t ++ [h])

/-- The block yielded by the `k+1`-st call to `Stream.next()` on a stream
whose queue state is `s`. -/
def stream_yield (s : List Nat) : Nat → Nat
  | 0 => (stream_next s).1
  | k + 1 => stream_yield (stream_next s).2 k

/-- The `k+1`-st block yielded by a stream created with pool size `p`. -/
def yields (p k : Nat) : Nat := stream_yield (stream_create p) k

/-! ## Concrete fixtures used by witnesses and counterexamples -/

/-- A 16-bit fully-defined signed little-endian format, one storage unit per
sample. -/
def fmt16 : DataFormat :=
  { length := 16, bits := 16, shift := 0, is_signed := true
    is_fully_defined := true, is_be := false, with_scale := false
    repeatCount := 1 }

/-- Two-channel fixture where the lexicographic id order ("a" before "b")
disagrees with the index order (0 before 1). -/
def devBA : Device :=
  ⟨[{ id := "b", index := 0, scan_element := true, data_format := fmt16 },
    { id := "a", index := 1, scan_element := true, data_format := fmt16 }]⟩

/-- Mask fixture enabling both channels of `devBA`. -/
def maskBoth : ChannelsMask := ⟨[true, true]⟩

/-- Mask fixture enabling no channel of `devBA`. -/
def maskNone : ChannelsMask := ⟨[false, false]⟩

/-! ## Helper lemmas -/

theorem sumSizes_eq (l : List Channel) (acc : Nat) :
    sumSizes l acc = acc + (l.map byte_size).sum := by
  induction l generalizing acc with
  | nil => simp [sumSizes]
  | cons c cs ih => simp [sumSizes, ih, Nat.add_assoc]

theorem convert_inverse_convert_eq (fmt : DataFormat) (x : Int)
    (h0 : 0 ≤ x) (hx : x < 2 ^ fmt.bits) :
    convert_inverse fmt (convert fmt (x * 2 ^ fmt.shift)) = x * 2 ^ fmt.shift := by
  have hs : ((2 : Int) ^ fmt.shift) ≠ 0 := by positivity
  have hfield : x * 2 ^ fmt.shift / 2 ^ fmt.shift % 2 ^ fmt.bits = x := by
    rw [Int.mul_ediv_cancel x hs, Int.emod_eq_of_lt h0 hx]
  unfold convert convert_inverse
  rw [hfield]
  split
  · have hsub : (x - 2 ^ fmt.bits) % 2 ^ fmt.bits = x := by
      rw [Int.sub_emod, Int.emod_self, sub_zero,
        Int.emod_emod_of_dvd _ (dvd_refl _), Int.emod_eq_of_lt h0 hx]
    rw [hsub]
  · rw [Int.emod_eq_of_lt h0 hx]

theorem convert_convert_inverse_eq (fmt : DataFormat) (hbits : 0 < fmt.bits)
    (h : Int) (hr : host_in_range fmt h) :
    convert fmt (convert_inverse fmt h) = h := by
  have hs : ((2 : Int) ^ fmt.shift) ≠ 0 := by positivity
  have hB : (0 : Int) < 2 ^ (fmt.bits - 1) := by positivity
  have hb2 : ((2 : Int) ^ fmt.bits) = 2 * 2 ^ (fmt.bits - 1) := by
    conv_lhs =>
      rw [show fmt.bits = (fmt.bits - 1) + 1 from (Nat.succ_pred_eq_of_pos hbits).symm]
    rw [pow_succ]
    ring
  have hfield : h % 2 ^ fmt.bits * 2 ^ fmt.shift / 2 ^ fmt.shift % 2 ^ fmt.bits
      = h % 2 ^ fmt.bits := by
    rw [Int.mul_ediv_cancel _ hs, Int.emod_emod_of_dvd _ (dvd_refl _)]
  unfold convert convert_inverse host_in_range at *
  rw [hfield]
  rcases hsign : fmt.is_signed with _ | _
  · rw [hsign] at hr
    simp only [Bool.false_eq_true, if_false] at hr
    rw [Int.emod_eq_of_lt hr.1 hr.2]
    simp [hsign]
  · rw [hsign] at hr
    simp only [if_true] at hr
    by_cases hneg : h < 0
    · have hmod : h % 2 ^ fmt.bits = h + 2 ^ fmt.bits := by
        rw [Int.emod_eq_add_self_emod]
        exact Int.emod_eq_of_lt (by omega) (by omega)
      rw [hmod, if_pos ⟨rfl, by omega⟩]
      omega
    · have hmod : h % 2 ^ fmt.bits = h :=
        Int.emod_eq_of_lt (by omega) (by omega)
      rw [hmod, if_neg ?_]
      rintro ⟨-, hcontra⟩
      omega

theorem getSeg_setSeg (f s : List Int) (off : Nat)
    (h : off + s.length ≤ f.length) :
    getSeg (setSeg f off s) off s.length = s := by
  unfold getSeg setSeg
  have h1 : (f.take off).length = off := by
    rw [List.length_take]
    omega
  rw [List.append_assoc, List.drop_left' h1, List.take_left' rfl]

theorem readFrames_writeFrames (off sz : Nat) (fs : List (List Int)) :
    ∀ ss : List (List Int), ss.length = fs.length →
      (∀ s ∈ ss, s.length = sz) →
      (∀ f ∈ fs, off + sz ≤ f.length) →
      readFrames off sz (writeFrames off fs ss) = ss := by
  induction fs with
  | nil =>
      intro ss hlen _ _
      have hnil : ss = [] := List.length_eq_zero.mp (by simpa using hlen)
      subst hnil
      rfl
  | cons f fs ih =>
      intro ss hlen hsz hfit
      cases ss with
      | nil => simp at hlen
      | cons s ss =>
          have hs_len : s.length = sz := hsz s (by simp)
          unfold writeFrames readFrames
          simp only [List.map_cons]
          congr 1
          · rw [← hs_len]
            exact getSeg_setSeg f s off (by rw [hs_len]; exact hfit f (by simp))
          · exact ih ss (by simpa using hlen)
              (fun t ht => hsz t (by simp [ht]))
              (fun g hg => hfit g (by simp [hg]))

theorem map_convert_roundtrip (fmt : DataFormat) (hbits : 0 < fmt.bits)
    (s : List Int) (hr : ∀ h ∈ s, host_in_range fmt h) :
    (s.map (convert_inverse fmt)).map (convert fmt) = s := by
  induction s with
  | nil => rfl
  | cons h t ih =>
      simp only [List.map_cons, List.cons.injEq]
      exact ⟨convert_convert_inverse_eq fmt hbits h (hr h (by simp)),
        ih fun g hg => hr g (by simp [hg])⟩

/-! ## Claims -/

/-- C1: For every device, the sample-size operation returns the sum, over
the channels currently enabled for buffered I/O taken in ascending
channel-index order, of `ceil(storage_bits/8)` multiplied by the channel's
repeat count; and it fails with `InvalidConfigurationError` when zero
channels are enabled. -/
theorem sample_size_sum_of_enabled (d : Device) (m : ChannelsMask) :
    (d.raw_channels.filter (fun c => m.isEnabled c.index) = [] →
      sample_size d m = .error .InvalidConfigurationError) ∧
    (d.raw_channels.filter (fun c => m.isEnabled c.index) ≠ [] →
      sample_size d m =
        .ok ((List.insertionSort indexLe
          (d.raw_channels.filter fun c => m.isEnabled c.index)).map byte_size).sum) := by
  constructor
  · intro h
    simp [sample_size, h]
  · intro h
    rcases he : d.raw_channels.filter (fun c => m.isEnabled c.index) with _ | ⟨c, cs⟩
    · exact absurd he h
    · simp [sample_size, he, sumSizes_eq]

/-- Witness for C1 on the two-channel fixture: two enabled 16-bit channels
give 4 bytes per sample, and the empty mask is rejected. -/
theorem sample_size_sum_of_enabled_witness :
    sample_size devBA maskBoth = .ok 4 ∧
    sample_size devBA maskNone = .error .InvalidConfigurationError :=
  ⟨((sample_size_sum_of_enabled devBA maskBoth).2 (by decide)).trans (by rfl),
   (sample_size_sum_of_enabled devBA maskNone).1 (by decide)⟩

/-- C3: For every buffer `b` and byte array `a`, `b.write(a)` copies exactly
`min(len(a), byte size of b's data region)` bytes into the buffer's memory
range and returns that number; bytes of `a` beyond the buffer's size are
ignored (the region past the copied prefix keeps its previous bytes, and the
region size does not change). -/
theorem buffer_write_copies_min (b : Buffer) (a : List Nat) :
    (b.write a).2 = min a.length b.data.length ∧
    (b.write a).1.data.length = b.data.length ∧
    (∀ i, i < (b.write a).2 → (b.write a).1.data[i]? = a[i]?) ∧
    (∀ i, (b.write a).2 ≤ i → (b.write a).1.data[i]? = b.data[i]?) := by
  have hmin : (b.write a).2 = min a.length b.data.length := by
    simp only [Buffer.write]
    split <;> omega
  have hn1 : (b.write a).2 ≤ a.length := by omega
  have hn2 : (b.write a).2 ≤ b.data.length := by omega
  have hdata : (b.write a).1.data =
      a.take (b.write a).2 ++ b.data.drop (b.write a).2 := by
    simp only [Buffer.write]
  refine ⟨hmin, ?_, ?_, ?_⟩
  · rw [hdata]
    simp
    omega
  · intro i hi
    rw [hdata, List.getElem?_append_left (by simp; omega),
      List.getElem?_take_of_lt hi]
  · intro i hi
    rw [hdata, List.getElem?_append_right (by simp; omega),
      List.getElem?_drop]
    congr 1
    simp
    omega

/-- Witness for C3: a 3-byte write into a 2-byte region returns 2, keeps the
region 2 bytes long, copies the first 2 bytes and drops the third. -/
theorem buffer_write_copies_min_witness :
    (Buffer.write ⟨2, 1, [9, 9]⟩ [1, 2, 3]).2 = min 3 2 ∧
    (Buffer.write ⟨2, 1, [9, 9]⟩ [1, 2, 3]).1.data[1]? = some 2 := by
  constructor
  · exact (buffer_write_copies_min ⟨2, 1, [9, 9]⟩ [1, 2, 3]).1
  · have h := (buffer_write_copies_min ⟨2, 1, [9, 9]⟩ [1, 2, 3]).2.2.1 1 (by decide)
    exact h.trans rfl

/-- C9: `b.push(0)` submits the buffer's full sample count, exactly as
`b.push()` with no argument does: a zero (falsy) count falls back to the
full-buffer default rather than submitting zero samples. -/
theorem push_zero_is_full_buffer (b : Buffer) :
    b.push (some 0) = b.push none ∧ b.push none = b.samples_count :=
  ⟨rfl, rfl⟩

/-- C10: The finalizers never invoke the native destroy call on an absent
handle: a failed construction leaves the handle `None` and the finalizer
performs no destroy; a successful construction yields exactly one destroy
call on the non-null handle — for `Buffer` and for `Context` alike. -/
theorem finalizers_guard_null_handle (res : Except IIOError Nat) :
    ((∃ e, res = .error e) →
      buffer_del_calls (buffer_init_handle res) = [] ∧
      context_del_calls (context_init_handle res) = []) ∧
    (∀ h, res = .ok h →
      buffer_del_calls (buffer_init_handle res) = [h] ∧
      context_del_calls (context_init_handle res) = [h]) := by
  cases res with
  | ok h =>
      constructor
      · rintro ⟨e, he⟩
        cases he
      · intro h' hh
        cases hh
        exact ⟨rfl, rfl⟩
  | error e =>
      exact ⟨fun _ => ⟨rfl, rfl⟩, fun h' hh => by cases hh⟩

/-- Witness for C10: a failed create destroys nothing; handle 5 is destroyed
exactly once. -/
theorem finalizers_guard_null_handle_witness :
    buffer_del_calls (buffer_init_handle (.error .AllocationError)) = [] ∧
    buffer_del_calls (buffer_init_handle (.ok 5)) = [5] :=
  ⟨((finalizers_guard_null_handle (.error .AllocationError)).1 ⟨_, rfl⟩).1,
   ((finalizers_guard_null_handle (.ok 5)).2 5 rfl).1⟩

/-- C5: For every device `d` and positive `samples_count` `n`, a buffer
created as `Buffer(d, n)` has byte length `n * d.sample_size` at creation
time, and `len(buffer)` returns exactly that value for the buffer's whole
lifetime — i.e. after any sequence of writes, the only modelled operation
that mutates buffer state. -/
theorem buffer_len_lifetime (d : Device) (m : ChannelsMask) (n : Nat)
    (hn : 0 < n) (ss : Nat) (hss : sample_size d m = .ok ss) (b : Buffer)
    (hb : Buffer.init d m n = .ok b) :
    b.len = n * ss ∧
    ∀ arrays : List (List Nat),
      (arrays.foldl (fun x a => (x.write a).1) b).len = n * ss := by
  have hlen : b.len = n * ss := by
    have h2 : Buffer.init d m n =
        .ok { length := n * ss, samples_count := n
              data := List.replicate (n * ss) 0 } := by
      unfold Buffer.init
      rw [hss]
      rfl
    rw [hb] at h2
    cases h2
    rfl
  have hfold : ∀ (arrays : List (List Nat)) (x : Buffer),
      (arrays.foldl (fun x a => (x.write a).1) x).len = x.len := by
    intro arrays
    induction arrays with
    | nil => intro x; rfl
    | cons a rest ih =>
        intro x
        simpa using ih (x.write a).1
  exact ⟨hlen, fun arrays => (hfold arrays b).trans hlen⟩

/-- Witness for C5: a 2-sample buffer over the two-channel 16-bit fixture is
8 bytes long, before and after a write. -/
theorem buffer_len_lifetime_witness :
    Buffer.init devBA maskBoth 2 =
      .ok { length := 8, samples_count := 2, data := List.replicate 8 0 } ∧
    Buffer.len { length := 8, samples_count := 2, data := List.replicate 8 0 }
      = 2 * 4 := by
  refine ⟨by rfl, ?_⟩
  exact (buffer_len_lifetime devBA maskBoth 2 (by decide) 4 (by rfl)
    { length := 8, samples_count := 2, data := List.replicate 8 0 } (by rfl)).1

instance : IsTotal Channel idLe := ⟨fun a b => le_total a.id.data b.id.data⟩

instance : IsTrans Channel idLe := ⟨fun _ _ _ => le_trans⟩

/-- C6 counterexample: on a device whose channel of id "b" has index 0 and
whose channel of id "a" has index 1, the `channels` property (which sorts by
`c.id`) is not ordered by the `index` attribute. -/
theorem channels_not_sorted_by_index :
    ¬ List.Sorted indexLe (channels devBA) := by
  have h : channels devBA =
      [{ id := "a", index := 1, scan_element := true, data_format := fmt16 },
       { id := "b", index := 0, scan_element := true, data_format := fmt16 }] := by rfl
  rw [h]
  decide

/-- C6 (amended): For every device, the channels list is ordered by the
channels' id string — `sorted(..., key=lambda c: c.id)` — not by the index
attribute. -/
theorem channels_sorted_by_id (d : Device) :
    List.Sorted idLe (channels d) := by
  have h : channels d = List.insertionSort idLe d.raw_channels := rfl
  rw [h]
  exact List.sorted_insertionSort idLe d.raw_channels

/-- C4: For every channel and block, `Channel.read` — with `raw=True` and
with `raw=False` alike — fails with `NotEnabledError` when the channel is
not enabled in the block's mask, rather than returning data. -/
theorem read_fails_when_not_enabled (c : Channel) (d : Device)
    (m : ChannelsMask) (blk : List (List Int))
    (h : m.isEnabled c.index = false) :
    ∀ raw : Bool, Channel.read c d m blk raw = .error .NotEnabledError := by
  intro raw
  cases raw <;>
    simp [Channel.read, Channel.read_raw, Channel.read_conv, h]

/-- Witness for C4: reading channel "b" (index 0) through the all-disabled
mask fails for both raw modes. -/
theorem read_fails_when_not_enabled_witness :
    Channel.read { id := "b", index := 0, scan_element := true, data_format := fmt16 }
      devBA maskNone [] true = .error .NotEnabledError ∧
    Channel.read { id := "b", index := 0, scan_element := true, data_format := fmt16 }
      devBA maskNone [] false = .error .NotEnabledError :=
  ⟨read_fails_when_not_enabled _ devBA maskNone [] (by decide) true,
   read_fails_when_not_enabled _ devBA maskNone [] (by decide) false⟩

theorem list_set_of_getD (l : List Bool) :
    ∀ (i : Nat) (x : Bool), l.getD i false = x → l.set i x = l := by
  induction l with
  | nil => intro i x _; rfl
  | cons a t ih =>
      intro i x h
      cases i with
      | zero =>
          simp only [List.getD_cons_zero] at h
          simp [h]
      | succ j =>
          simp only [List.getD_cons_succ] at h
          simp [List.set, ih j x h]

/-- C7: Setting `Channel.enabled` toggles that channel's bit in the mask
(leaving every other bit unchanged), is a no-op when the bit is already in
the requested state, and requires `is_scan_element == true`: enabling a
channel with `is_scan_element == false` fails with `NotScanElementError`. -/
theorem enabled_setter_toggles_bit (c : Channel) (m : ChannelsMask) :
    (c.scan_element = true → c.index < m.bits.length →
      ∀ x : Bool, ∃ m', c.set_enabled m x = .ok m' ∧
        m'.isEnabled c.index = x ∧
        ∀ j, j ≠ c.index → m'.isEnabled j = m.isEnabled j) ∧
    (c.scan_element = true → ∀ x : Bool,
      m.isEnabled c.index = x → c.set_enabled m x = .ok m) ∧
    (c.scan_element = false →
      c.enable m = .error .NotScanElementError) := by
  refine ⟨?_, ?_, ?_⟩
  · intro hscan hidx x
    refine ⟨⟨m.bits.set c.index x⟩, ?_, ?_, ?_⟩
    · cases x <;>
        simp [Channel.set_enabled, Channel.enable, Channel.disable, hscan]
    · simp [ChannelsMask.isEnabled, List.getD_eq_getElem?_getD,
        List.getElem?_set_self, hidx]
    · intro j hj
      simp [ChannelsMask.isEnabled, List.getD_eq_getElem?_getD,
        List.getElem?_set_ne (fun h => hj h.symm)]
  · intro hscan x hx
    have hset : m.bits.set c.index x = m.bits := list_set_of_getD m.bits c.index x hx
    cases x <;>
      simp [Channel.set_enabled, Channel.enable, Channel.disable, hscan, hset]
  · intro hscan
    simp [Channel.enable, hscan]

/-- Witness for C7: enabling an already-enabled scan element is a no-op;
enabling a non-scan-element fails. -/
theorem enabled_setter_toggles_bit_witness :
    Channel.set_enabled
      { id := "voltage0", index := 0, scan_element := true, data_format := fmt16 }
      ⟨[true]⟩ true = .ok ⟨[true]⟩ ∧
    Channel.enable
      { id := "temp", index := 0, scan_element := false, data_format := fmt16 }
      ⟨[false]⟩ = .error .NotScanElementError :=
  ⟨(enabled_setter_toggles_bit _ ⟨[true]⟩).2.1 rfl true rfl,
   (enabled_setter_toggles_bit _ ⟨[false]⟩).2.2 rfl⟩

/-- C2: For every channel enabled in the mask and every sample sequence `V`
that fits the block (one sample of `repeat` storage words per frame),
writing `V` via `Channel.write` and reading it back via `Channel.read` on
the same mask/layout yields `V` unchanged — raw, and also converted
provided every sample is representable in the channel's data format; in
particular, converting a sample from hardware to host format and then
applying the inverse conversion is the identity when the data format has
`with_scale = false`. -/
theorem channel_write_read_roundtrip (c : Channel) (d : Device)
    (m : ChannelsMask) (blk V : List (List Int))
    (hen : m.isEnabled c.index = true)
    (hlen : V.length = blk.length)
    (hsz : ∀ s ∈ V, s.length = wordCount c)
    (hfit : ∀ f ∈ blk, wordOffset d m c + wordCount c ≤ f.length) :
    (∃ blk', Channel.write c d m blk V true = .ok blk' ∧
        Channel.read c d m blk' true = .ok V) ∧
    (0 < c.data_format.bits → c.data_format.with_scale = false →
      (∀ s ∈ V, ∀ h ∈ s, host_in_range c.data_format h) →
      ∃ blk', Channel.write c d m blk V false = .ok blk' ∧
        Channel.read c d m blk' false = .ok V) ∧
    (c.data_format.with_scale = false →
      ∀ x : Int, 0 ≤ x → x < 2 ^ c.data_format.bits →
        convert_inverse c.data_format
            (convert c.data_format (x * 2 ^ c.data_format.shift)) =
          x * 2 ^ c.data_format.shift) := by
  refine ⟨?_, ?_, ?_⟩
  · refine ⟨writeFrames (wordOffset d m c) blk V, ?_, ?_⟩
    · simp [Channel.write, Channel.write_raw, hen]
    · simp only [Channel.read, if_true, Channel.read_raw, hen]
      rw [readFrames_writeFrames _ _ _ V hlen hsz hfit]
  · intro hbits hscale hr
    refine ⟨writeFrames (wordOffset d m c) blk
      (V.map fun s => s.map (convert_inverse c.data_format)), ?_, ?_⟩
    · simp [Channel.write, Channel.write_conv, hen]
    · simp only [Channel.read, Bool.false_eq_true, if_false,
        Channel.read_conv, hen, if_true]
      rw [readFrames_writeFrames _ _ _ _
        (by simpa using hlen)
        (by
          intro s hs
          obtain ⟨t, ht, rfl⟩ := List.mem_map.mp hs
          simpa using hsz t ht)
        hfit]
      rw [List.map_map]
      have hmap : V.map ((fun s => s.map (convert c.data_format)) ∘
          (fun s => s.map (convert_inverse c.data_format))) = V.map id := by
        apply List.map_congr_left
        intro s hs
        simpa using map_convert_roundtrip c.data_format hbits s (hr s hs)
      rw [hmap, List.map_id]
  · intro _ x h0 hx
    exact convert_inverse_convert_eq c.data_format x h0 hx

/-- Witness for C2: the channel of id "b" (index 0) of the two-channel
fixture, a two-frame block of stride 2, samples 5 and 7; and the conversion
identity at the 16-bit sample 3. -/
theorem channel_write_read_roundtrip_witness :
    (∃ blk', Channel.write
        { id := "b", index := 0, scan_element := true, data_format := fmt16 }
        devBA maskBoth [[0, 0], [0, 0]] [[5], [7]] true = .ok blk' ∧
      Channel.read
        { id := "b", index := 0, scan_element := true, data_format := fmt16 }
        devBA maskBoth blk' true = .ok [[5], [7]]) ∧
    convert_inverse fmt16 (convert fmt16 (3 * 2 ^ fmt16.shift)) =
      3 * 2 ^ fmt16.shift := by
  have h := channel_write_read_roundtrip
    { id := "b", index := 0, scan_element := true, data_format := fmt16 }
    devBA maskBoth [[0, 0], [0, 0]] [[5], [7]]
    (by decide) (by decide) (by decide) (by decide)
  exact ⟨h.1, h.2.2 rfl 3 (by decide) (by decide)⟩

theorem stream_next_snd (l : List Nat) (hl : l ≠ []) :
    (stream_next l).2 = l.rotate 1 := by
  cases l with
  | nil => exact absurd rfl hl
  | cons a t =>
      show t ++ [a] = (a :: t).rotate 1
      rw [show (1 : Nat) = 0 + 1 from rfl, List.rotate_cons_succ,
        List.rotate_zero]

theorem stream_yield_eq (k : Nat) : ∀ l : List Nat, l ≠ [] →
    stream_yield l k = ((l.rotate k).head?).getD 0 := by
  induction k with
  | zero =>
      intro l hl
      cases l with
      | nil => exact absurd rfl hl
      | cons a t => simp [stream_yield, stream_next, List.rotate_zero]
  | succ k ih =>
      intro l hl
      have h2 := stream_next_snd l hl
      simp only [stream_yield]
      rw [h2, ih (l.rotate 1) (by simpa [List.rotate_eq_nil_iff] using hl),
        List.rotate_rotate, Nat.add_comm]

theorem yields_eq_mod (p : Nat) (hp : 0 < p) (k : Nat) :
    yields p k = k % p := by
  unfold yields stream_create
  rw [stream_yield_eq k (List.range p)
      (by simpa [List.range_eq_nil] using hp.ne'),
    ← List.rotate_mod,
    List.head?_rotate (by simpa using Nat.mod_lt k hp)]
  simp [List.getElem?_range (Nat.mod_lt k hp)]

/-- C8: For every stream with pool size in {1, 2, 4}, successive
`Stream.next()` calls yield completed blocks in the FIFO order in which they
were submitted to the hardware ring (the `k`-th call yields block
`k mod pool_size`), and never yield the same underlying block twice until
every other block of the pool has been yielded in between. -/
theorem stream_yields_fifo (p : Nat) (hp : p = 1 ∨ p = 2 ∨ p = 4) :
    (∀ k, yields p k = k % p) ∧
    (∀ i j, i < j → yields p i = yields p j →
      ∀ b, b < p → b ≠ yields p i →
        ∃ k, i < k ∧ k < j ∧ yields p k = b) := by
  have hp0 : 0 < p := by rcases hp with rfl | rfl | rfl <;> norm_num
  have hy : ∀ k, yields p k = k % p := fun k => yields_eq_mod p hp0 k
  refine ⟨hy, ?_⟩
  intro i j hij heq b hb hbne
  rw [hy i, hy j] at heq
  rw [hy i] at hbne
  refine ⟨i + (b + p - i % p) % p, ?_, ?_, ?_⟩
  · rcases hp with rfl | rfl | rfl <;> omega
  · rcases hp with rfl | rfl | rfl <;> omega
  · rw [hy]
    rcases hp with rfl | rfl | rfl <;> omega

/-- Witness for C8: with a pool of two blocks, the sixth call yields block
1 = 5 mod 2. -/
theorem stream_yields_fifo_witness : yields 2 5 = 1 :=
  ((stream_yields_fifo 2 (Or.inr (Or.inl rfl))).1 5).trans rfl

end IIO
